import Mathlib

/-!
Verification of the fish-activity time-series normalization and resampling
engine (`fishact.parse`, `fishact.summarize`).

The Python code operates on pandas DataFrames.  We shallowly embed the
relevant tables as lists of records with rational-valued numeric columns
(the source uses IEEE floats; sums, means and differences are modelled
exactly over `ℚ`).  Timestamps are modelled as rational hours since the
pandas epoch 1970-01-01 00:00, matching the `datetime64[ns]` representation
up to unit choice.  Each definition is translated from the named source
function; aliasing/mutation behaviour of the pandas code is made explicit
by state-passing where the source mutates its inputs.
-/

/-! ### `fishact.parse._resample_array` (parse.py lines 704-739) -/

/-- Sum of the numpy slice `x[a : a + w]` (`np.sum(x[i*ind_win:(i+1)*ind_win])`). -/
def sumSlice (x : List ℚ) (a w : ℕ) : ℚ :=
  ((x.drop a).take w).sum

/-- Arithmetic mean, `np.mean`.  The empty case (division by zero, which
numpy turns into NaN) is never reached by callers below. -/
def listMean (x : List ℚ) : ℚ :=
  x.sum / (x.length : ℚ)

/-- `fishact.parse._resample_array(x, ind_win)`.  Raises `RuntimeError` on an
empty array (modelled as `none`).  If `len(x) < ind_win` it returns the one
element `mean(x) * ind_win`; if `ind_win` divides `len(x)` it returns the
window sums; otherwise the window sums of the full windows followed by
`mean` of the short tail rescaled by `ind_win`. -/
def resampleArray (x : List ℚ) (ind_win : ℕ) : Option (List ℚ) :=
  if x.length = 0 then none
  else if x.length < ind_win then some [listMean x * ind_win]
  else if x.length % ind_win = 0 then
    some ((List.range (x.length / ind_win)).map (fun i => sumSlice x (i * ind_win) ind_win))
  else
    some (((List.range (x.length / ind_win)).map (fun i => sumSlice x (i * ind_win) ind_win))
      ++ [listMean (x.drop (ind_win * (x.length / ind_win))) * ind_win])

/-- C1: for every nonempty signal array `x` and window `w ≥ 1`,
`_resample_array` succeeds and returns `⌈len(x)/w⌉` entries (written
`(len(x) + w - 1) / w` in natural division); when `w` divides `len(x)`
evenly each entry is the sum of its `w`-element slice; when the final chunk
is shorter than `w` (including `len(x) < w`, which yields a single entry)
the final entry is `mean(chunk) * w` where the chunk is the trailing
`len(x) mod w` elements. -/
theorem resample_array_spec (x : List ℚ) (w : ℕ) (hx : x ≠ []) (hw : 1 ≤ w) :
    ∃ y : List ℚ, resampleArray x w = some y
      ∧ y.length = (x.length + w - 1) / w
      ∧ (x.length % w = 0 →
          ∀ i : ℕ, i < y.length → y.getD i 0 = sumSlice x (i * w) w)
      ∧ (x.length % w ≠ 0 →
          y.getLast? = some (listMean (x.drop (w * (x.length / w))) * w)) := by
  have hn : x.length ≠ 0 := fun h => hx (List.length_eq_zero.mp h)
  unfold resampleArray
  rw [if_neg hn]
  by_cases hlt : x.length < w
  · rw [if_pos hlt]
    refine ⟨_, rfl, ?_, ?_, ?_⟩
    · have h1 : 0 < x.length := Nat.pos_of_ne_zero hn
      simp only [List.length_singleton]
      symm
      apply Nat.div_eq_of_lt_le
      · omega
      · omega
    · intro hmod i h
      exfalso
      have hm := Nat.mod_eq_of_lt hlt
      omega
    · intro _
      have hq : x.length / w = 0 := Nat.div_eq_of_lt hlt
      simp [hq]
  · rw [if_neg hlt]
    by_cases hmod : x.length % w = 0
    · rw [if_pos hmod]
      refine ⟨_, rfl, ?_, ?_, ?_⟩
      · simp only [List.length_map, List.length_range]
        have hd := Nat.div_add_mod x.length w
        have h1 : x.length + w - 1 = (w - 1) + w * (x.length / w) := by omega
        rw [h1, Nat.add_mul_div_left _ _ (by omega : 0 < w),
          Nat.div_eq_of_lt (by omega : w - 1 < w)]
        omega
      · intro _ i h
        simp only [List.length_map, List.length_range] at h
        rw [List.getD_eq_getElem _ _ (by simpa using h)]
        simp [List.getElem_map, List.getElem_range]
      · intro hmod2
        exact absurd hmod hmod2
    · rw [if_neg hmod]
      refine ⟨_, rfl, ?_, ?_, ?_⟩
      · simp only [List.length_append, List.length_map, List.length_range,
          List.length_singleton]
        have hd := Nat.div_add_mod x.length w
        have hr : x.length % w < w := Nat.mod_lt _ (by omega)
        have h1 : x.length + w - 1 = (x.length % w - 1) + w * (x.length / w + 1) := by
          have h2 : w * (x.length / w + 1) = w * (x.length / w) + w := by ring
          omega
        rw [h1, Nat.add_mul_div_left _ _ (by omega : 0 < w),
          Nat.div_eq_of_lt (by omega : x.length % w - 1 < w)]
        omega
      · intro hmod2
        exact absurd hmod2 hmod
      · intro _
        exact List.getLast?_concat _

/-- The ten-element test array `np.arange(10)` used by the repository's own
resampling tests. -/
def arangeTen : List ℚ := [0, 1, 2, 3, 4, 5, 6, 7, 8, 9]

/-- Witness for `resample_array_spec`, instantiated at `x = [0..9]`, `w = 3`
(the short tail is `[9]`, rescaled to `9/1 * 3 = 27`). -/
theorem resample_array_spec_witness :
    ∃ y : List ℚ, resampleArray arangeTen 3 = some y
      ∧ y.length = (arangeTen.length + 3 - 1) / 3
      ∧ (arangeTen.length % 3 = 0 →
          ∀ i : ℕ, i < y.length → y.getD i 0 = sumSlice arangeTen (i * 3) 3)
      ∧ (arangeTen.length % 3 ≠ 0 →
          y.getLast? = some (listMean (arangeTen.drop (3 * (arangeTen.length / 3))) * 3)) :=
  resample_array_spec arangeTen 3 (by with_unfolding_all decide) (by decide)

/-! ### Canonical activity rows and the sort used by `resample`
(parse.py lines 796-855) -/

/-- One row of the canonical activity table, with the columns that
`fishact.parse.resample` reads.  Signal columns (`activity`, `sleep`) are
the two entries of the default `signal=['activity', 'sleep']`. -/
structure ARow where
  instrument : ℤ
  trial : ℤ
  location : ℤ
  zeit : ℚ
  time : ℚ
  light : Bool
  day : ℤ
  acquisition : ℤ
  activity : ℚ
  sleep : ℚ
deriving DecidableEq

/-- Row comparison for the sort
`df.sort_values(by=['instrument', 'trial', loc_name, 'zeit'])`:
lexicographic on `(instrument, trial, location, zeit)`. -/
def rowLe (a b : ARow) : Prop :=
  a.instrument < b.instrument ∨ (a.instrument = b.instrument ∧
    (a.trial < b.trial ∨ (a.trial = b.trial ∧
      (a.location < b.location ∨ (a.location = b.location ∧ a.zeit ≤ b.zeit)))))

instance : DecidableRel rowLe := fun a b => by unfold rowLe; infer_instance

/-- The sort key of a row, packaged into a lexicographic product (used only
to derive totality and transitivity of `rowLe`). -/
def rowLexKey (r : ARow) : Lex (ℤ × Lex (ℤ × Lex (ℤ × ℚ))) :=
  toLex (r.instrument, toLex (r.trial, toLex (r.location, r.zeit)))

theorem rowLe_iff (a b : ARow) : rowLe a b ↔ rowLexKey a ≤ rowLexKey b := by
  unfold rowLe rowLexKey
  rw [Prod.Lex.le_iff, Prod.Lex.le_iff, Prod.Lex.le_iff]

instance : IsTotal ARow rowLe :=
  ⟨fun a b => by rw [rowLe_iff, rowLe_iff]; exact le_total _ _⟩

instance : IsTrans ARow rowLe :=
  ⟨fun a b c h1 h2 => by
    rw [rowLe_iff] at h1 h2 ⊢
    exact le_trans h1 h2⟩

/-- The stable multi-column sort `sort_values(...).reset_index(drop=True)`. -/
def sortRows (df : List ARow) : List ARow :=
  List.insertionSort rowLe df

/-- First-occurrence deduplication, as `pandas.Series.unique`. -/
def uniques {α : Type} [DecidableEq α] (l : List α) : List α :=
  l.foldl (fun acc x => if x ∈ acc then acc else acc ++ [x]) []

/-- The `(instrument, trial, location)` grouping key of `resample`. -/
def keyIT (r : ARow) : ℤ × ℤ × ℤ :=
  (r.instrument, r.trial, r.location)

/-- Positional boolean-mask selection.  Models `df_in.loc[mask]` where the
mask Series is aligned to `df_in`'s RangeIndex label-by-label (the default
index after `load_activity`). -/
def maskSelect {α : Type} (mask : List Bool) (l : List α) : List α :=
  ((mask.zip l).filter (fun p => p.1)).map (fun p => p.2)

/-- Split a per-group slice into maximal consecutive runs on which `light`
and `acquisition` are both constant: `switch` is set where
`light.diff().astype(bool) | acquisition.diff()` is truthy (always at the
first row), and each run goes from one switch to just before the next
(parse.py lines 835-849). -/
def splitSegs : List ARow → List (List ARow)
  | [] => []
  | x :: xs =>
    match splitSegs xs with
    | [] => [[x]]
    | [] :: rest => [x] :: [] :: rest
    | (y :: s) :: rest =>
      if x.light = y.light ∧ x.acquisition = y.acquisition then
        (x :: y :: s) :: rest
      else
        [x] :: (y :: s) :: rest

/-- Every `w`-th element, `df.index[::ind_win]` (for `w ≥ 1`). -/
def everyNth {α : Type} (w : ℕ) (l : List α) : List α :=
  ((l.enum.filter (fun p => p.1 % w = 0)).map (fun p => p.2))

/-- `fishact.parse._resample_segment`: non-signal columns are taken from
every `ind_win`-th row (the first row of each chunk), signal columns from
`_resample_array` over the whole segment (parse.py lines 742-759). -/
def resampleSegment (seg : List ARow) (ind_win : ℕ) : List ARow :=
  let firsts := everyNth ind_win seg
  let acts := (resampleArray (seg.map ARow.activity) ind_win).getD []
  let slps := (resampleArray (seg.map ARow.sleep) ind_win).getD []
  (firsts.zip (acts.zip slps)).map (fun p =>
    { p.1 with activity := p.2.1, sleep := p.2.2 })

/-- `fishact.parse.resample(df, ind_win)` (parse.py lines 762-855).  The
group iteration follows `groupby(['instrument', 'trial', loc_name])` key
order, which for the sorted copy `df_in` is first-occurrence order.  Note
the source computes each group's boolean mask on the *original* `df`
(`df['instrument'] == inst`, line 830) and then indexes the sorted copy
`df_in` with it; with the default RangeIndex this aligns the mask
positionally, which is modelled faithfully here by applying `mask` (built
from `df`) to `sortRows df`. -/
def resample (df : List ARow) (ind_win : ℕ) : List ARow :=
  let dfIn := sortRows df
  if ind_win = 1 then dfIn
  else
    (uniques (dfIn.map keyIT)).flatMap (fun k =>
      let mask := df.map (fun r => decide (keyIT r = k))
      let dfLoc := maskSelect mask dfIn
      (splitSegs dfLoc).flatMap (fun seg => resampleSegment seg ind_win))

/-- C5: with `ind_win = 1`, `resample` returns the input unchanged apart
from the sort: the output is a permutation of the input rows (each input
row appears exactly once, with all its column values) and is sorted by
`(instrument, trial, location, zeit)`. -/
theorem resample_win_one (df : List ARow) :
    (resample df 1).Perm df ∧ List.Sorted rowLe (resample df 1) := by
  have h : resample df 1 = sortRows df := by simp [resample]
  rw [h]
  exact ⟨List.perm_insertionSort rowLe df, List.sorted_insertionSort rowLe df⟩

/-- A 4-row, single-instrument/trial, constant-light, constant-acquisition
table with two locations whose rows are interleaved (location order
1, 2, 1, 2) — i.e. *not* pre-sorted by `(instrument, trial, location, zeit)`.
Activities are 0, 10, 1, 11 so that every window sum identifies exactly
which input rows it aggregated. -/
def mixedInput : List ARow :=
  [⟨0, 0, 1, 0, 0, true, 0, 1, 0, 0⟩,
   ⟨0, 0, 2, 0, 0, true, 0, 1, 10, 0⟩,
   ⟨0, 0, 1, 1, 1, true, 0, 1, 1, 0⟩,
   ⟨0, 0, 2, 1, 1, true, 0, 1, 11, 0⟩]

/-- C2 (failing-input evaluation): on `mixedInput` with window 2, the group
mask is computed on the unsorted `df` but applied positionally to the sorted
copy, so the window emitted while iterating location 1 sums activity
`0 + 10` — the location-1 row at zeit 0 together with the *location-2* row
at zeit 0 — and the second window sums `1 + 11`, the zeit-1 rows of both
locations; no output row carries location 2 at all.  A segment-respecting
resample of the same rows (third conjunct: the same table pre-sorted) gives
the per-location sums 1 and 21 instead. -/
theorem resample_mixes_locations :
    (resample mixedInput 2).map (fun r => (r.location, r.zeit, r.activity))
        = [(1, 0, 10), (1, 1, 12)]
      ∧ (sortRows mixedInput).map (fun r => (r.location, r.zeit, r.activity))
        = [(1, 0, 0), (1, 1, 1), (2, 0, 10), (2, 1, 11)]
      ∧ (resample (sortRows mixedInput) 2).map (fun r => (r.location, r.zeit, r.activity))
        = [(1, 0, 1), (2, 0, 21)] := by
  refine ⟨?_, ?_, ?_⟩ <;> with_unfolding_all decide

/-! ### `fishact.summarize._compute_bouts` and `bouts`
(summarize.py lines 13-132 and 181-277) -/

/-- One row of the per-animal table consumed by `fishact.summarize` (the
location column is called `fish` there). -/
structure SRow where
  fish : ℤ
  genotype : String
  day : ℤ
  light : Bool
  time : ℚ
  exp_time : ℚ
  sleep : ℤ
deriving DecidableEq

instance : Inhabited SRow := ⟨⟨0, "", 0, false, 0, 0, 0⟩⟩

/-- `df['sleep'].values.astype(bool)` for one row. -/
def sleepB (r : SRow) : Bool := decide (r.sleep ≠ 0)

/-- `np.where(np.diff(sleep))[0] + 1`: the chronological positions `i ≥ 1`
at which the boolean sleep state differs from position `i - 1`. -/
def switches (df : List SRow) : List ℕ :=
  (List.range df.length).filter (fun i =>
    decide (1 ≤ i) && (sleepB (df.getD i default) != sleepB (df.getD (i - 1) default)))

/-- The output record of `_compute_bouts` (clock times modelled as rational
hours like all other timestamps). -/
structure BoutCore where
  day_start : ℤ
  day_end : ℤ
  light_start : Bool
  light_end : Bool
  bout_start_exp : ℚ
  bout_end_exp : ℚ
  bout_start_clock : ℚ
  bout_end_clock : ℚ
  bout_length : ℚ
deriving DecidableEq

/-- One row of the `_compute_bouts` output, built from the switch positions
`p` (bout start) and `q` (bout end): `bout_length = end exp_time - start
exp_time`. -/
def mkBout (df : List SRow) (p q : ℕ) : BoutCore :=
  let rp := df.getD p default
  let rq := df.getD q default
  ⟨rp.day, rq.day, rp.light, rq.light, rp.exp_time, rq.exp_time, rp.time, rq.time,
    rq.exp_time - rp.exp_time⟩

/-- `np.arange(start, stop, 2)`. -/
def arangeTwo (start stop : ℕ) : List ℕ :=
  (List.range stop).filter (fun k => decide (start ≤ k) && decide ((k - start) % 2 = 0))

/-- `fishact.summarize._compute_bouts(df, rest)`: fewer than two switches
yield an empty result; otherwise every other switch starting at offset
`int(not (start_asleep XOR rest))` is paired with its successor switch
(summarize.py lines 84-132). -/
def computeBouts (df : List SRow) (rest : Bool) : List BoutCore :=
  if (switches df).length < 2 then []
  else
    (arangeTwo (if sleepB (df.getD 0 default) == rest then 1 else 0)
        ((switches df).length - 1)).map
      (fun k => mkBout df ((switches df).getD k 0) ((switches df).getD (k + 1) 0))

/-- A row of the `bouts()` output: `_compute_bouts` output plus the `fish`
and `genotype` columns filled in per location. -/
structure BoutRow where
  fish : ℤ
  genotype : String
  day_start : ℤ
  day_end : ℤ
  light_start : Bool
  light_end : Bool
  bout_start_exp : ℚ
  bout_end_exp : ℚ
  bout_start_clock : ℚ
  bout_end_clock : ℚ
  bout_length : ℚ
deriving DecidableEq

def addFishGenotype (f : ℤ) (g : String) (b : BoutCore) : BoutRow :=
  ⟨f, g, b.day_start, b.day_end, b.light_start, b.light_end, b.bout_start_exp,
    b.bout_end_exp, b.bout_start_clock, b.bout_end_clock, b.bout_length⟩

/-- `fishact.summarize.bouts(df, rest)`: loop over `df['fish'].unique()`
(first-occurrence order), compute the per-location bouts and append
(summarize.py lines 240-277). -/
def bouts (df : List SRow) (rest : Bool) : List BoutRow :=
  (uniques (df.map SRow.fish)).flatMap (fun f =>
    let dfF := df.filter (fun r => decide (r.fish = f))
    (computeBouts dfF rest).map (addFishGenotype f (dfF.getD 0 default).genotype))

/-- Every element of `switches` is a position in `[1, len(df))`. -/
theorem switches_mem {df : List SRow} {i : ℕ} (h : i ∈ switches df) :
    1 ≤ i ∧ i < df.length := by
  have h2 := List.mem_filter.mp h
  have h3 := List.mem_range.mp h2.1
  have h4 := h2.2
  simp only [Bool.and_eq_true, decide_eq_true_eq] at h4
  exact ⟨h4.1, h3⟩

/-- `switches` is strictly increasing. -/
theorem switches_pairwise (df : List SRow) : (switches df).Pairwise (· < ·) :=
  (List.pairwise_lt_range _).filter _

/-- C4: for a single-location boolean state series, (i) fewer than two
state switches yield an empty bout result; (ii) if the series has exactly
two switches, at positions `a` and `b` (equivalently: it starts and ends in
the same state with exactly one interior run of the opposite state, namely
positions `a` to `b - 1`), then extracting bouts of that opposite state
(`rest` equal to the negation of the starting state) yields exactly the one
bout from `a` to `b`, whose `bout_length` is the run's duration
`exp_time[b] - exp_time[a]`; (iii) every emitted bout runs between two
interior positions `0 < p < q < len(df)`, so a run touching the first or
last sample is never emitted. -/
theorem compute_bouts_spec (df : List SRow) (rest : Bool) :
    ((switches df).length < 2 → computeBouts df rest = [])
    ∧ (∀ a b : ℕ, switches df = [a, b] → rest = !sleepB (df.getD 0 default) →
        computeBouts df rest = [mkBout df a b]
        ∧ (mkBout df a b).bout_length
            = (df.getD b default).exp_time - (df.getD a default).exp_time)
    ∧ (∀ bt ∈ computeBouts df rest, ∃ p q : ℕ, 0 < p ∧ p < q ∧ q < df.length
        ∧ bt.bout_start_exp = (df.getD p default).exp_time
        ∧ bt.bout_end_exp = (df.getD q default).exp_time) := by
  refine ⟨?_, ?_, ?_⟩
  · intro h
    simp [computeBouts, h]
  · intro a b hsw hrest
    constructor
    · have hb0 : (if sleepB (df.getD 0 default) == rest then 1 else 0) = 0 := by
        rw [hrest]
        cases sleepB (df.getD 0 default) <;> rfl
      simp only [computeBouts, hsw, hb0]
      norm_num
      rfl
    · rfl
  · intro bt hbt
    by_cases h2 : (switches df).length < 2
    · simp [computeBouts, h2] at hbt
    · simp only [computeBouts, if_neg h2] at hbt
      obtain ⟨k, hk, rfl⟩ := List.mem_map.mp hbt
      have hkr : k < (switches df).length - 1 :=
        List.mem_range.mp (List.mem_filter.mp hk).1
      have hk0 : k < (switches df).length := by omega
      have hk1 : k + 1 < (switches df).length := by omega
      refine ⟨(switches df).getD k 0, (switches df).getD (k + 1) 0, ?_, ?_, ?_, rfl, rfl⟩
      · have hmem : (switches df).getD k 0 ∈ switches df := by
          rw [List.getD_eq_getElem _ _ hk0]
          exact List.getElem_mem hk0
        exact (switches_mem hmem).1
      · have hp := List.pairwise_iff_get.mp (switches_pairwise df)
          ⟨k, hk0⟩ ⟨k + 1, hk1⟩ (by simp)
        rw [List.getD_eq_getElem _ _ hk0, List.getD_eq_getElem _ _ hk1]
        simpa using hp
      · have hmem : (switches df).getD (k + 1) 0 ∈ switches df := by
          rw [List.getD_eq_getElem _ _ hk1]
          exact List.getElem_mem hk1
        exact (switches_mem hmem).2

/-- A five-sample series: asleep, asleep, awake, awake, asleep
(one interior awake run at positions 2-3). -/
def fiveSampleDf : List SRow :=
  [⟨1, "wt", 5, true, 0, 0, 1⟩, ⟨1, "wt", 5, true, 1, 1, 1⟩,
   ⟨1, "wt", 5, true, 2, 2, 0⟩, ⟨1, "wt", 5, true, 3, 3, 0⟩,
   ⟨1, "wt", 5, true, 4, 4, 1⟩]

/-- Witness for `compute_bouts_spec`: on `fiveSampleDf` the switches are at
positions 2 and 4, and extracting awake bouts (`rest = false`, the negation
of the asleep starting state) yields exactly the single interior bout of
length 2. -/
theorem compute_bouts_spec_witness :
    computeBouts fiveSampleDf false = [mkBout fiveSampleDf 2 4]
      ∧ (mkBout fiveSampleDf 2 4).bout_length
          = (fiveSampleDf.getD 4 default).exp_time
            - (fiveSampleDf.getD 2 default).exp_time :=
  (compute_bouts_spec fiveSampleDf false).2.1 2 4
    (by with_unfolding_all decide) (by with_unfolding_all decide)

/-- The concrete activity table of the spec's bout scenario: 20 samples per
location for 2 locations, `exp_time` equal to the 0-based sample index in
hours per location, `sleep = 1` everywhere except rows 3, 4, 5, 6 of the
table (0-indexed, all in location 1), which are 0. -/
def c6Table : List SRow :=
  ((List.range 20).map (fun j =>
    ⟨1, "wt", 5, true, (j : ℚ), (j : ℚ), if 3 ≤ j ∧ j ≤ 6 then 0 else 1⟩))
  ++ ((List.range 20).map (fun j => ⟨2, "wt", 5, true, (j : ℚ), (j : ℚ), 1⟩))

set_option maxRecDepth 40000 in
/-- C6: on the concrete scenario table, `bouts(rest=False)` returns exactly
one row, with `bout_start_exp = 3.0`, `bout_end_exp = 7.0` and
`bout_length = 4.0` (location 2 never switches state, so it contributes no
rows). -/
theorem bouts_concrete_scenario :
    bouts c6Table false = [⟨1, "wt", 5, 5, true, true, 3, 7, 3, 7, 4⟩] := by
  with_unfolding_all decide

/-! ### `fishact.summarize._sleep_latency` and `daily_summary`
(summarize.py lines 135-178 and 280-325) -/

/-- Minimum of a list of rationals (`Series.min`), `none` on the empty list. -/
def qmin? : List ℚ → Option ℚ
  | [] => none
  | x :: xs => some (xs.foldl min x)

theorem foldl_min_mem (xs : List ℚ) : ∀ x : ℚ, xs.foldl min x ∈ x :: xs := by
  induction xs with
  | nil => intro x; simp
  | cons y ys ih =>
    intro x
    simp only [List.foldl_cons]
    rcases List.mem_cons.mp (ih (min x y)) with h3 | h3
    · rcases min_choice x y with h2 | h2
      · rw [h3, h2]
        exact List.mem_cons_self _ _
      · rw [h3, h2]
        exact List.mem_cons.mpr (Or.inr (List.mem_cons_self _ _))
    · exact List.mem_cons.mpr (Or.inr (List.mem_cons.mpr (Or.inr h3)))

theorem foldl_min_le (xs : List ℚ) : ∀ x y : ℚ, y ∈ x :: xs → xs.foldl min x ≤ y := by
  induction xs with
  | nil =>
    intro x y hy
    simp at hy
    simp [hy]
  | cons z zs ih =>
    intro x y hy
    simp only [List.foldl_cons]
    rcases List.mem_cons.mp hy with h | h
    · subst h
      exact le_trans (ih (min y z) (min y z) (List.mem_cons_self _ _)) (min_le_left _ _)
    · rcases List.mem_cons.mp h with h2 | h2
      · subst h2
        exact le_trans (ih (min x y) (min x y) (List.mem_cons_self _ _)) (min_le_right _ _)
      · exact ih (min x z) y (List.mem_cons.mpr (Or.inr h2))

theorem qmin?_eq_of_min {l : List ℚ} {m : ℚ} (hm : m ∈ l) (hle : ∀ y ∈ l, m ≤ y) :
    qmin? l = some m := by
  cases l with
  | nil => cases hm
  | cons x xs =>
    have h1 : xs.foldl min x ≤ m := foldl_min_le xs x m hm
    have h2 : m ≤ xs.foldl min x := hle _ (foldl_min_mem xs x)
    simp [qmin?, le_antisymm h1 h2]

/-- `fishact.summarize._sleep_latency(df)`: the first awake minute is the
minimal `exp_time` with `sleep == 0` (NaN, i.e. `none`, if there is none);
the latency is the minimal `exp_time` among rows with `sleep == 1` and
`exp_time` strictly greater, minus the first awake minute (NaN if there is
no such row). -/
def sleepLatency (df : List SRow) : Option ℚ :=
  (qmin? ((df.filter (fun r => decide (r.sleep = 0))).map SRow.exp_time)).bind (fun fam =>
    (qmin? ((df.filter (fun r =>
        decide (r.sleep = 1) && decide (fam < r.exp_time))).map SRow.exp_time)).map
      (fun t1 => t1 - fam))

/-- The `(fish, genotype, day, light)` group of the canonical table that
`daily_summary`'s `groupby` passes to `_sleep_latency` (within-group row
order is input order, which `groupby` preserves). -/
def groupOf (df : List SRow) (f : ℤ) (g : String) (d : ℤ) (li : Bool) : List SRow :=
  df.filter (fun r =>
    decide (r.fish = f) && decide (r.genotype = g) && decide (r.day = d) && (r.light == li))

/-- The `latency` column of `fishact.summarize.daily_summary` for one
`(fish, genotype, day, light)` group (summarize.py lines 322-325). -/
def dailyLatency (df : List SRow) (f : ℤ) (g : String) (d : ℤ) (li : Bool) : Option ℚ :=
  sleepLatency (groupOf df f g d li)

/-- C7: for every `(location, genotype, day, light)` group of the daily
summary, the latency is `none` (NaN) when the animal is inactive
(`sleep ≠ 0`) throughout the group; and given the time-earliest sample `r0`
of the group that is not in the inactive state (`sleep = 0`), the latency is
`none` when the animal never returns to the inactive state (`sleep = 1`)
strictly after `r0`, and otherwise equals `r1.exp_time - r0.exp_time` where
`r1` is the time-earliest sample with `sleep = 1` strictly after `r0`. -/
theorem daily_latency_spec (df : List SRow) (f : ℤ) (g : String) (d : ℤ) (li : Bool) :
    ((∀ r ∈ groupOf df f g d li, r.sleep ≠ 0) → dailyLatency df f g d li = none)
    ∧ (∀ r0 ∈ groupOf df f g d li, r0.sleep = 0 →
        (∀ r ∈ groupOf df f g d li, r.sleep = 0 → r0.exp_time ≤ r.exp_time) →
        ((∀ r ∈ groupOf df f g d li, r.sleep = 1 → r.exp_time ≤ r0.exp_time) →
            dailyLatency df f g d li = none)
        ∧ (∀ r1 ∈ groupOf df f g d li, r1.sleep = 1 → r0.exp_time < r1.exp_time →
            (∀ r ∈ groupOf df f g d li, r.sleep = 1 → r0.exp_time < r.exp_time →
                r1.exp_time ≤ r.exp_time) →
            dailyLatency df f g d li = some (r1.exp_time - r0.exp_time))) := by
  constructor
  · intro h
    have hempty : (groupOf df f g d li).filter (fun r => decide (r.sleep = 0)) = [] := by
      apply List.filter_eq_nil_iff.mpr
      intro r hr
      simpa using h r hr
    unfold dailyLatency sleepLatency
    rw [hempty]
    rfl
  · intro r0 hr0 hs0 hmin0
    have hfam : qmin? (((groupOf df f g d li).filter
        (fun r => decide (r.sleep = 0))).map SRow.exp_time) = some r0.exp_time := by
      apply qmin?_eq_of_min
      · exact List.mem_map.mpr ⟨r0, List.mem_filter.mpr ⟨hr0, by simp [hs0]⟩, rfl⟩
      · intro y hy
        obtain ⟨r, hrf, rfl⟩ := List.mem_map.mp hy
        have hrm := List.mem_filter.mp hrf
        exact hmin0 r hrm.1 (by simpa using hrm.2)
    constructor
    · intro hnever
      have hempty : (groupOf df f g d li).filter (fun r =>
          decide (r.sleep = 1) && decide (r0.exp_time < r.exp_time)) = [] := by
        apply List.filter_eq_nil_iff.mpr
        intro r hr
        simp only [Bool.and_eq_true, decide_eq_true_eq, not_and]
        intro h1
        exact not_lt.mpr (hnever r hr h1)
      unfold dailyLatency sleepLatency
      rw [hfam]
      simp only [Option.some_bind]
      rw [hempty]
      rfl
    · intro r1 hr1 hs1 hlt hmin1
      have ht1 : qmin? (((groupOf df f g d li).filter (fun r =>
          decide (r.sleep = 1) && decide (r0.exp_time < r.exp_time))).map
            SRow.exp_time) = some r1.exp_time := by
        apply qmin?_eq_of_min
        · exact List.mem_map.mpr ⟨r1, List.mem_filter.mpr ⟨hr1, by simp [hs1, hlt]⟩, rfl⟩
        · intro y hy
          obtain ⟨r, hrf, rfl⟩ := List.mem_map.mp hy
          have hrm := List.mem_filter.mp hrf
          have hrc : r.sleep = 1 ∧ r0.exp_time < r.exp_time := by simpa using hrm.2
          exact hmin1 r hrm.1 hrc.1 hrc.2
      unfold dailyLatency sleepLatency
      rw [hfam]
      simp only [Option.some_bind]
      rw [ht1]
      rfl

/-- A three-sample group: asleep at hour 0, awake at hour 1, asleep again at
hour 2; its sleep latency is one hour. -/
def latencyDf : List SRow :=
  [⟨1, "wt", 5, true, 0, 0, 1⟩, ⟨1, "wt", 5, true, 1, 1, 0⟩, ⟨1, "wt", 5, true, 2, 2, 1⟩]

/-- Witness for `daily_latency_spec` at the concrete group above: the first
awake sample is at `exp_time = 1`, the first return to sleep at
`exp_time = 2`, so the latency is `2 - 1`. -/
theorem daily_latency_spec_witness :
    dailyLatency latencyDf 1 "wt" 5 true = some ((2 : ℚ) - 1) :=
  ((daily_latency_spec latencyDf 1 "wt" 5 true).2 ⟨1, "wt", 5, true, 1, 1, 0⟩
      (by with_unfolding_all decide) rfl (by with_unfolding_all decide)).2
    ⟨1, "wt", 5, true, 2, 2, 1⟩ (by with_unfolding_all decide) rfl
    (by with_unfolding_all decide) (by with_unfolding_all decide)

/-! ### `fishact.parse.load_activity`: the `day`, `light` and Zeitgeber-zero
computations (parse.py lines 432-460) -/

/-- One raw sample row as read by `load_activity` (timestamps as rational
hours since 1970-01-01 00:00, the pandas `datetime64` epoch). -/
structure Raw where
  location : ℤ
  time : ℚ
  middur : ℚ
deriving DecidableEq

/-- Floor of a rational, computed as `num / den` with Euclidean integer
division (kernel-reducible form of `Int.floor`). -/
def qfloor (q : ℚ) : ℤ := q.num / q.den

theorem qfloor_eq (q : ℚ) : qfloor q = ⌊q⌋ := by
  rw [Rat.floor_def]
  rfl

/-- Calendar date (days since the epoch) of a timestamp. -/
def dateOf (t : ℚ) : ℤ := qfloor (t / 24)

/-- Wall-clock time of day, in hours (`pd.DatetimeIndex(...).time`). -/
def clockOf (t : ℚ) : ℚ := t - 24 * dateOf t

/-- Day-of-month component of the proleptic Gregorian date that lies `z`
days after 1970-01-01 (the `.day` accessor of a pandas `DatetimeIndex`).
Computed with the standard civil-from-days algorithm; all divisions are
Euclidean, which matches Python floor division. -/
def civilDay (z : ℤ) : ℤ :=
  let z2 := z + 719468
  let era := z2 / 146097
  let doe := z2 - era * 146097
  let yoe := (doe - doe / 1460 + doe / 36524 - doe / 146096) / 365
  let doy := doe - (365 * yoe + yoe / 4 - yoe / 100)
  let mp := (5 * doy + 2) / 153
  doy - (153 * mp + 2) / 5 + 1

/-- In January 1970 (0 to 30 days after the epoch) the day-of-month is just
the day count plus one. -/
theorem civilDay_small (d : ℤ) (h0 : 0 ≤ d) (h1 : d ≤ 30) : civilDay d = d + 1 := by
  interval_cases d <;> decide

/-- Smallest element of a list of times; 0 as a junk default for the empty
table (a table read by `load_activity` is never empty). -/
def qminD (l : List ℚ) : ℚ := (qmin? l).getD 0

/-- `datetime.datetime.combine(t_min.date(), lights_on)` for the earliest
sample time `t_min` of the table: the `lights_on` instant on the calendar
date of the earliest sample (parse.py lines 440-444). -/
def lightsAnchor (df : List Raw) (lightsOn : ℚ) : ℚ :=
  24 * (dateOf (qminD (df.map Raw.time)) : ℚ) + lightsOn

/-- The `day` column of `load_activity`:
`pd.DatetimeIndex(df['time'] - combine(t_min.date(), lights_on)).day
 + day_in_the_life - 1`.  Subtracting the anchor gives a timedelta, which
the `DatetimeIndex` constructor reinterprets as nanoseconds since the epoch;
`.day` is then the day-of-month of the epoch-based datetime. -/
def loadDay (df : List Raw) (lightsOn : ℚ) (ditl : ℤ) (t : ℚ) : ℤ :=
  civilDay (qfloor ((t - lightsAnchor df lightsOn) / 24)) + ditl - 1

/-- The `light` column: `lights_on <= clock < lights_off`, or all-true when
no `lights_off` schedule is given (parse.py lines 432-437). -/
def loadLight (lightsOn : ℚ) (lightsOff : Option ℚ) (t : ℚ) : Bool :=
  match lightsOff with
  | none => true
  | some off => decide (lightsOn ≤ clockOf t) && decide (clockOf t < off)

/-- Zeitgeber-zero resolution for `zeitgeber_0 = None` (parse.py lines
447-457): take the times of the samples with `day == zeitgeber_0_day` and
`light == True`; if there are none, raise (`none`); otherwise Zeitgeber zero
is the `lights_on` instant on the calendar date of the earliest such
sample. -/
def zeit0 (df : List Raw) (lightsOn : ℚ) (lightsOff : Option ℚ) (ditl z0day : ℤ) :
    Option ℚ :=
  (qmin? ((df.filter (fun r =>
      decide (loadDay df lightsOn ditl r.time = z0day)
        && loadLight lightsOn lightsOff r.time)).map Raw.time)).map
    (fun tm => 24 * (dateOf tm : ℚ) + lightsOn)

theorem qmin?_eq_none {l : List ℚ} : qmin? l = none ↔ l = [] := by
  cases l <;> simp [qmin?]

/-- A one-sample table: one location, sampled exactly at 09:00 on the epoch
date, with `lights_on = 9:00` and `day_in_the_life = 4`. -/
def oneSampleRaw : List Raw := [⟨1, 9, 0⟩]

/-- C3 (counterexample): the claimed formula
`day = floor(days since anchor) + (day_in_the_life - 1)` fails on the code.
For a single sample taken exactly at the lights-on instant (so the anchor of
the claim and of the code coincide and `floor(days elapsed) = 0`), the code
produces `day = day_in_the_life = 4`, not `day_in_the_life - 1 = 3`: the
`.day` accessor of the timedelta-as-datetime is day-of-month, which is
`floor(days) + 1`, not `floor(days)`. -/
theorem load_day_claim_counterexample :
    ¬ (loadDay oneSampleRaw 9 4 9
        = ⌊((9 : ℚ) - lightsAnchor oneSampleRaw 9) / 24⌋ + (4 - 1)) := by
  rw [← qfloor_eq]
  with_unfolding_all decide

/-- C3 (amended): for any row time `t` at or after the anchor — the
`lights_on` instant on the calendar date of the earliest sample, which is
the first lights-on at or before the earliest sample whenever that sample
falls at or after `lights_on` on its date — and less than 31 days after it,
the code computes `day = floor(days elapsed since anchor) + day_in_the_life`
(one more than the claimed formula); rows in the first 24 h after the
anchor therefore get `day = day_in_the_life`. -/
theorem load_day_amended (df : List Raw) (lightsOn : ℚ) (ditl : ℤ) (t : ℚ)
    (h0 : lightsAnchor df lightsOn ≤ t)
    (h1 : t - lightsAnchor df lightsOn < 31 * 24) :
    loadDay df lightsOn ditl t = ⌊(t - lightsAnchor df lightsOn) / 24⌋ + ditl := by
  unfold loadDay
  rw [qfloor_eq]
  have hd0 : 0 ≤ ⌊(t - lightsAnchor df lightsOn) / 24⌋ :=
    Int.floor_nonneg.mpr (div_nonneg (sub_nonneg.mpr h0) (by norm_num))
  have hd1 : ⌊(t - lightsAnchor df lightsOn) / 24⌋ ≤ 30 := by
    have h2 : ⌊(t - lightsAnchor df lightsOn) / 24⌋ < 31 := by
      apply Int.floor_lt.mpr
      rw [div_lt_iff₀ (by norm_num : (0 : ℚ) < 24)]
      push_cast
      linarith
    omega
  rw [civilDay_small _ hd0 hd1]
  ring

/-- A one-sample table sampled at 10:00 on the epoch date. -/
def tenOClockRaw : List Raw := [⟨1, 10, 0⟩]

/-- Witness for `load_day_amended`: the sample at hour 10 is one hour after
the 09:00 anchor, so its `day` is `0 + day_in_the_life = 4`. -/
theorem load_day_amended_witness :
    loadDay tenOClockRaw 9 4 10 = ⌊((10 : ℚ) - lightsAnchor tenOClockRaw 9) / 24⌋ + 4 :=
  load_day_amended tenOClockRaw 9 4 10
    (by rw [show lightsAnchor tenOClockRaw 9 = 9 by with_unfolding_all decide]; norm_num)
    (by rw [show lightsAnchor tenOClockRaw 9 = 9 by with_unfolding_all decide]; norm_num)

/-- C8: with `zeitgeber_0 = None`, `load_activity` fails (raises, producing
no table) if and only if no sample has `day = zeitgeber_0_day` and
`light = True`; and when a time-earliest such sample `r0` exists, the
Zeitgeber origin is the `lights_on` instant on `r0`'s calendar date. -/
theorem zeitgeber_zero_spec (df : List Raw) (lightsOn : ℚ) (lightsOff : Option ℚ)
    (ditl z0day : ℤ) :
    (zeit0 df lightsOn lightsOff ditl z0day = none ↔
      ∀ r ∈ df, ¬(loadDay df lightsOn ditl r.time = z0day
        ∧ loadLight lightsOn lightsOff r.time = true))
    ∧ (∀ r0 ∈ df, loadDay df lightsOn ditl r0.time = z0day →
        loadLight lightsOn lightsOff r0.time = true →
        (∀ r ∈ df, loadDay df lightsOn ditl r.time = z0day →
          loadLight lightsOn lightsOff r.time = true → r0.time ≤ r.time) →
        zeit0 df lightsOn lightsOff ditl z0day
          = some (24 * (dateOf r0.time : ℚ) + lightsOn)) := by
  constructor
  · unfold zeit0
    rw [Option.map_eq_none']
    rw [qmin?_eq_none, List.map_eq_nil_iff, List.filter_eq_nil_iff]
    constructor
    · intro h r hr hc
      have := h r hr
      simp only [Bool.and_eq_true, decide_eq_true_eq, not_and] at this
      exact this hc.1 hc.2
    · intro h r hr
      simp only [Bool.and_eq_true, decide_eq_true_eq, not_and]
      intro h1 h2
      exact h r hr ⟨h1, h2⟩
  · intro r0 hr0 hday hlight hmin
    unfold zeit0
    have hq : qmin? ((df.filter (fun r =>
        decide (loadDay df lightsOn ditl r.time = z0day)
          && loadLight lightsOn lightsOff r.time)).map Raw.time) = some r0.time := by
      apply qmin?_eq_of_min
      · exact List.mem_map.mpr
          ⟨r0, List.mem_filter.mpr ⟨hr0, by simp [hday, hlight]⟩, rfl⟩
      · intro y hy
        obtain ⟨r, hrf, rfl⟩ := List.mem_map.mp hy
        have hrm := List.mem_filter.mp hrf
        have hrc : loadDay df lightsOn ditl r.time = z0day
            ∧ loadLight lightsOn lightsOff r.time = true := by
          simpa using hrm.2
        exact hmin r hrm.1 hrc.1 hrc.2
    rw [hq]
    rfl

/-- A one-sample table sampled at 10:00 on 1970-01-02 (hour 34): with
`lights_on = 9:00`, `lights_off = 23:00` and `day_in_the_life = 4` this
sample has `day = 4` and `light = True`. -/
def day2Raw : List Raw := [⟨1, 34, 0⟩]

/-- Witness for `zeitgeber_zero_spec`: with `zeitgeber_0_day = 4`, the
Zeitgeber origin resolves to 09:00 on the sample's date (hour 33). -/
theorem zeitgeber_zero_spec_witness :
    zeit0 day2Raw 9 (some 23) 4 4 = some (24 * (dateOf (34 : ℚ) : ℚ) + 9) :=
  (zeitgeber_zero_spec day2Raw 9 (some 23) 4 4).2 ⟨1, 34, 0⟩
    (by with_unfolding_all decide) (by with_unfolding_all decide)
    (by with_unfolding_all decide) (by with_unfolding_all decide)

/-! ### `fishact.parse.merge_experiments` (parse.py lines 503-607) -/

/-- A row of an experiment table as read by `merge_experiments` (only the
columns it touches: `instrument`, `trial` and the `zeit` sort key). -/
structure MRow where
  instrument : ℤ
  trial : ℤ
  zeit : ℚ
deriving DecidableEq

/-- An experiment table: its column-name list plus its rows. -/
structure MTable where
  cols : List String
  rows : List MRow
deriving DecidableEq

/-- Lexicographic comparison for the final
`sort_values(by=['instrument', 'trial', 'zeit'])`. -/
def mrowLe (a b : MRow) : Prop :=
  a.instrument < b.instrument ∨ (a.instrument = b.instrument ∧
    (a.trial < b.trial ∨ (a.trial = b.trial ∧ a.zeit ≤ b.zeit)))

instance : DecidableRel mrowLe := fun a b => by unfold mrowLe; infer_instance

/-- Lexicographic comparison on `(instrument, trial)` pairs (the sorted key
order of `groupby(['instrument', 'trial'])`). -/
def pairLe (a b : ℤ × ℤ) : Prop :=
  a.1 < b.1 ∨ (a.1 = b.1 ∧ a.2 ≤ b.2)

instance : DecidableRel pairLe := fun a b => by unfold pairLe; infer_instance

/-- `fishact.parse.instrument_trial_pairs(df)`: the distinct
`(instrument, trial)` pairs of a table, in sorted `groupby` key order
(parse.py lines 858-863). -/
def instrumentTrialPairs (df : MTable) : List (ℤ × ℤ) :=
  List.insertionSort pairLe (uniques (df.rows.map (fun r => (r.instrument, r.trial))))

/-- Overwriting the `instrument` and `trial` columns of a table with a
supplied pair — note the source performs this assignment *on the input
DataFrame itself* (`df['instrument'] = ...`, parse.py lines 600-601). -/
def overwriteIT (df : MTable) (p : ℤ × ℤ) : MTable :=
  ⟨df.cols, df.rows.map (fun r => ⟨p.1, p.2, r.zeit⟩)⟩

/-- The output-construction loop of `merge_experiments` once all checks have
passed, together with the final state of the *input* tables: with
`instrument_trial = None` the inputs are appended untouched; otherwise each
input's `instrument`/`trial` columns are overwritten in place before
appending.  The merged table is sorted by `(instrument, trial, zeit)`. -/
def mergeBuild (dfs : List MTable) (cols0 : List String)
    (instrumentTrial : Option (List (ℤ × ℤ))) : List MTable × MTable :=
  match instrumentTrial with
  | none => (dfs, ⟨cols0, List.insertionSort mrowLe ((dfs.map MTable.rows).flatten)⟩)
  | some l =>
    ((dfs.zip l).map (fun p => overwriteIT p.1 p.2),
      ⟨cols0, List.insertionSort mrowLe
        ((((dfs.zip l).map (fun p => overwriteIT p.1 p.2)).map MTable.rows).flatten)⟩)

/-- `fishact.parse.merge_experiments(dfs, instrument_trial)`, returning the
final state of the input tables and the merged table, or the message of the
exception raised.  Faithful details: (1) the duplicate-pair check on a
supplied `instrument_trial` sits *after* the `raise` inside the
length-mismatch branch (parse.py lines 565-570) and is therefore utterly
unreachable — so no such check appears below; (2) the column check compares
sorted column lists, i.e. column lists up to permutation; (3) with a
supplied `instrument_trial`, a table whose `instrument` column is not all
`-9999` reaches `warning.warn(...)`, a `NameError` (the module is called
`warnings`), modelled as an error; tables mutated before such a crash are
not modelled. -/
def mergeExperiments (dfs : List MTable) (instrumentTrial : Option (List (ℤ × ℤ))) :
    Except String (List MTable × MTable) :=
  if (match instrumentTrial with
      | some l => decide (l.length ≠ dfs.length)
      | none => false) = true then
    Except.error "Must have same number of entries in instrument_trial as in dfs."
  else
    match dfs with
    | [] => Except.error "IndexError: list index out of range"
    | df0 :: rest =>
      if rest.any (fun df => !(decide (df.cols.Perm df0.cols))) then
        Except.error "Not all DataFrames have the same columns."
      else
        match instrumentTrial with
        | none =>
          if ((-9999 : ℤ), (-9999 : ℤ)) ∈ (df0 :: rest).flatMap instrumentTrialPairs then
            Except.error "Not all DataFrames have populated instrument and trial columns."
          else if ((df0 :: rest).flatMap instrumentTrialPairs).length
              ≠ (uniques ((df0 :: rest).flatMap instrumentTrialPairs)).length then
            Except.error "Nonunique instrument/trial pairs in inputted DataFrames."
          else
            Except.ok (mergeBuild (df0 :: rest) df0.cols none)
        | some l =>
          if (df0 :: rest).any (fun df =>
              df.rows.any (fun r => decide (r.instrument ≠ -9999))) then
            Except.error "NameError: name 'warning' is not defined"
          else
            Except.ok (mergeBuild (df0 :: rest) df0.cols (some l))

/-- The canonical column list of the tables in the merge examples. -/
def mcols : List String := ["instrument", "trial", "zeit"]

/-- Two placeholder-instrument experiment tables. -/
def mergeLeft : MTable := ⟨mcols, [⟨-9999, -9999, 0⟩]⟩

def mergeRight : MTable := ⟨mcols, [⟨-9999, -9999, 1⟩]⟩

/-- C9 (failing-input evaluation): calling `merge_experiments` on two tables
with the *duplicated* supplied pairs `instrument_trial = [(1, 1), (1, 1)]`
succeeds — the result carries the duplicate `(1, 1)` pairs — even though the
pairs fail the code's own uniqueness test (second conjunct): the
duplicate-pair check for a supplied `instrument_trial` is unreachable dead
code behind a `raise` (parse.py lines 565-570), so no `ConfigurationError`
is raised. -/
theorem merge_nonunique_pairs_accepted :
    (mergeExperiments [mergeLeft, mergeRight] (some [(1, 1), (1, 1)])).toOption
      = some ([⟨mcols, [⟨1, 1, 0⟩]⟩, ⟨mcols, [⟨1, 1, 1⟩]⟩],
          ⟨mcols, [⟨1, 1, 0⟩, ⟨1, 1, 1⟩]⟩)
    ∧ ([((1 : ℤ), (1 : ℤ)), (1, 1)]).length
        ≠ (uniques [((1 : ℤ), (1 : ℤ)), (1, 1)]).length := by
  constructor
  · with_unfolding_all decide
  · with_unfolding_all decide

/-- C10 (counterexample): `merge_experiments` does *not* leave its inputs
unchanged when `instrument_trial` is supplied: on a single placeholder table
with `instrument_trial = [(7, 8)]`, the input table list after the call has
its `instrument`/`trial` columns overwritten to `(7, 8)`. -/
theorem merge_mutates_inputs :
    (mergeExperiments [mergeLeft] (some [(7, 8)])).toOption.map Prod.fst
      ≠ some [mergeLeft] := by
  with_unfolding_all decide

/-- C10 (amended): `resample`, bout extraction and the daily summary are
pure functions of their inputs (their pandas bodies only write to copies or
fresh frames, which is why they are modelled as plain functions above), and
`merge_experiments` leaves its input tables unchanged whenever
`instrument_trial` is None; but when `instrument_trial` is supplied, a
successful merge returns the input tables with their `instrument` and
`trial` columns overwritten in place by the supplied pairs. -/
theorem merge_frame_effects :
    (∀ dfs out, mergeExperiments dfs none = Except.ok out → out.1 = dfs)
    ∧ (∀ dfs l out, mergeExperiments dfs (some l) = Except.ok out →
        out.1 = (dfs.zip l).map (fun p => overwriteIT p.1 p.2)) := by
  constructor
  · intro dfs out h
    unfold mergeExperiments at h
    dsimp only [] at h
    repeat' split at h
    all_goals try contradiction
    all_goals simp only [Except.ok.injEq, reduceCtorEq] at h
    all_goals rw [← h]
    all_goals rfl
  · intro dfs l out h
    unfold mergeExperiments at h
    dsimp only [] at h
    repeat' split at h
    all_goals try contradiction
    all_goals simp only [Except.ok.injEq, reduceCtorEq] at h
    all_goals rw [← h]
    all_goals rfl

/-- A single experiment table with populated instrument and trial columns. -/
def mergeSolo : MTable := ⟨mcols, [⟨1, 1, 0⟩]⟩

/-- Witness for `merge_frame_effects`: merging the single populated table
with `instrument_trial = None` succeeds and hands the input list back
unchanged. -/
theorem merge_frame_effects_witness :
    (([mergeSolo], (⟨mcols, [⟨1, 1, 0⟩]⟩ : MTable)) : List MTable × MTable).1
      = [mergeSolo] :=
  merge_frame_effects.1 [mergeSolo] ([mergeSolo], ⟨mcols, [⟨1, 1, 0⟩]⟩)
    (by with_unfolding_all rfl)
